import Mathlib

/-!
Verification of the dataset preparation scripts
`normalize_and_split_images.py` and `normalize_and_reencode_and_split_videos.py`.

The development shallowly embeds the two scripts:

* The IEEE-754 binary64 arithmetic used by `split_list` (through the literals
  `0.7`, `0.2`, `0.1`, `1e-6` and the expressions `n * ratios[0]`,
  `n * (ratios[0] + ratios[1])`, `abs(sum(ratios) - 1.0) < 1e-6`) is embedded
  exactly: every finite double is a dyadic rational, and every operation
  rounds the exact result to 53 significant bits, round to nearest, ties to
  even.  Overflow and subnormals play no role in the magnitudes the scripts
  compute with.
* `random.Random(seed).shuffle` is embedded as the CPython Fisher-Yates pass
  `for i in reversed(range(1, len(x))): j = _randbelow(i+1); swap x[i] x[j]`
  whose pseudo-random draws come from a fixed deterministic function of the
  seed and the draw position.  The Mersenne-Twister stream itself is external
  library code; the development relies only on the draws being a function of
  the seed alone and on `_randbelow(k) < k`.
* The filesystem loops of the two `main` functions are embedded as pure
  functions that thread the per-split counters and record every side effect
  (directory creation, encoder invocation, warning) in an explicit trace;
  a raised exception is an `Except`-style early exit carrying the effects
  performed so far.
-/

namespace Py

/-- Fuel-driven binary length: `nbitsF fuel n` is the number of binary digits
of `n` provided `fuel ≥ n`.  Structural recursion on the fuel keeps the
function kernel-reducible. -/
def nbitsF : ℕ → ℕ → ℕ
  | _, 0 => 0
  | 0, _+1 => 0
  | f+1, n+1 => nbitsF f ((n+1)/2) + 1

/-- Number of binary digits of `n` (`0` for `n = 0`). -/
def nbits (n : ℕ) : ℕ := nbitsF n n

/-- Round `N / 2^s` to the nearest integer, ties to even (meaningful for
`s ≥ 1`). -/
def rne (N s : ℕ) : ℕ :=
  if 2^(s-1) < N % 2^s then N / 2^s + 1
  else if N % 2^s < 2^(s-1) then N / 2^s
  else if (N / 2^s) % 2 = 0 then N / 2^s else N / 2^s + 1

/-- Round a natural number to at most 53 significant binary digits, round to
nearest, ties to even: the mantissa rounding step of IEEE-754 binary64
arithmetic applied to exact nonnegative dyadic values. -/
def round53N (N : ℕ) : ℕ :=
  if nbits N ≤ 53 then N else rne N (nbits N - 53) * 2^(nbits N - 53)

/-- Signed `round53N` (rounding is symmetric around zero). -/
def round53Z (z : ℤ) : ℤ :=
  if 0 ≤ z then (round53N z.toNat : ℤ) else -(round53N z.natAbs : ℤ)

/-- A finite IEEE-754 binary64 value kept as the exact dyadic rational
`num / 2^den`.  Every double appearing in the scripts is of this shape. -/
structure PyFloat where
  num : ℤ
  den : ℕ
deriving DecidableEq

/-- Exact rational value of a `PyFloat`. -/
def PyFloat.toRat (x : PyFloat) : ℚ := x.num / 2^x.den

/-- IEEE binary64 addition: correctly round the exact sum. -/
def pyAdd (x y : PyFloat) : PyFloat :=
  let d := max x.den y.den
  ⟨round53Z (x.num * 2^(d - x.den) + y.num * 2^(d - y.den)), d⟩

/-- IEEE negation. -/
def pyNeg (x : PyFloat) : PyFloat := ⟨-x.num, x.den⟩

/-- IEEE subtraction. -/
def pySub (x y : PyFloat) : PyFloat := pyAdd x (pyNeg y)

/-- IEEE binary64 multiplication: correctly round the exact product. -/
def pyMul (x y : PyFloat) : PyFloat := ⟨round53Z (x.num * y.num), x.den + y.den⟩

/-- Absolute value of a double. -/
def pyAbs (x : PyFloat) : PyFloat := ⟨|x.num|, x.den⟩

/-- Comparison of two doubles (IEEE comparison of finite values is exact). -/
def pyLt (x y : PyFloat) : Bool := decide (x.num * 2^y.den < y.num * 2^x.den)

/-- Conversion `float(n)` of a nonnegative Python integer to binary64. -/
def pyOfNat (n : ℕ) : PyFloat := ⟨round53Z n, 0⟩

/-- Python `int()` applied to a finite float: truncation toward zero. -/
def pyInt (x : PyFloat) : ℤ :=
  if 0 ≤ x.num then ((x.num.toNat / 2^x.den : ℕ) : ℤ)
  else -((x.num.natAbs / 2^x.den : ℕ) : ℤ)

/-- The binary64 value of the literal `0.0`. -/
def lit00 : PyFloat := ⟨0, 0⟩

/-- The binary64 value of the literal `0.7` (nearest double to `7/10`,
see `lit07_near`). -/
def lit07 : PyFloat := ⟨6305039478318694, 53⟩

/-- The binary64 value of the literal `0.2` (nearest double to `1/5`,
see `lit02_near`). -/
def lit02 : PyFloat := ⟨3602879701896397, 54⟩

/-- The binary64 value of the literal `0.1` (nearest double to `1/10`,
see `lit01_near`). -/
def lit01 : PyFloat := ⟨3602879701896397, 55⟩

/-- The binary64 value of the literal `1.0` (exactly representable). -/
def lit10 : PyFloat := ⟨1, 0⟩

/-- The binary64 value of the literal `1e-6` (nearest double to `1/10^6`,
see `lit1em6_near`). -/
def lit1em6 : PyFloat := ⟨4722366482869645, 72⟩

/-- The binary64 value of the literal `0.5` (exactly representable). -/
def lit05 : PyFloat := ⟨1, 1⟩

/-- The binary64 value of the literal `0.3` (nearest double to `3/10`,
see `lit03_near`). -/
def lit03 : PyFloat := ⟨5404319552844595, 54⟩

/-- Model of the pseudo-random draw that `random.Random(seed)._randbelow`
makes at its `pos`-th call: a fixed deterministic function of the seed and
the position.  The Mersenne-Twister generator is external library code, not
part of this repository; the development relies only on the stream being a
function of the seed alone (CPython re-seeds a fresh generator from `seed`
on every `split_list` call) and on the bound `randbelow seed pos k < k`. -/
def mtDraw (seed : ℤ) (pos : ℕ) : ℕ :=
  (seed.natAbs * 1812433253 + pos * 2654435761 + 2531011) % 4294967296

/-- `Random(seed)._randbelow(k)` at draw position `pos`: a value `< k`. -/
def randbelow (seed : ℤ) (pos k : ℕ) : ℕ := mtDraw seed pos % k

/-- One swap `x[i], x[j] = x[j], x[i]` of `random.shuffle`. -/
def listSwap {α : Type} (l : List α) (i j : ℕ) : List α :=
  match l.get? i, l.get? j with
  | some a, some b => (l.set i b).set j a
  | some _, none => l
  | none, _ => l

/-- The Fisher-Yates loop of CPython `random.shuffle`:
`for i in reversed(range(1, len(x))): j = _randbelow(i+1); swap x[i] x[j]`.
The first argument is the next loop index `i`; the loop stops before `i = 0`. -/
def fyAux {α : Type} (seed : ℤ) : ℕ → List α → List α
  | 0, l => l
  | c+1, l => fyAux seed c (listSwap l (c+1) (randbelow seed (c+1) (c+2)))

/-- `random.Random(seed).shuffle(items)` as a pure function on lists. -/
def pyShuffle {α : Type} (seed : ℤ) (l : List α) : List α :=
  fyAux seed (l.length - 1) l

/-- The first cut index `n1 = int(n * ratios[0])` computed by `split_list`
for the ratios `(0.7, 0.2, 0.1)` the two `main` functions pass. -/
def splitN1 (n : ℕ) : ℕ := (pyInt (pyMul (pyOfNat n) lit07)).toNat

/-- The second cut index `n2 = int(n * (ratios[0] + ratios[1]))` computed by
`split_list` for the ratios `(0.7, 0.2, 0.1)`. -/
def splitN2 (n : ℕ) : ℕ := (pyInt (pyMul (pyOfNat n) (pyAdd lit07 lit02))).toNat

end Py

open Py

/-- A media item: the path of a source file, as a list of components. -/
abbrev Item := List String

/-- `PurePath.name`: the final path component. -/
def pathName (p : Item) : String := p.getLastD ""

/-- `str(p)` of a relative `pathlib` path given by its components; the empty
component list is the path `"."` (what `rootp.relative_to(src_root)` yields
for the root itself). -/
def strPath (comps : List String) : String :=
  if comps.isEmpty then "." else String.intercalate "/" comps

/-- Split a character list at a separator (kernel-reducible replacement for
`String.splitOn` restricted to one-character separators). -/
def splitChar (sep : Char) : List Char → List Char → List String
  | [], acc => [String.mk acc.reverse]
  | c :: cs, acc =>
    if c = sep then String.mk acc.reverse :: splitChar sep cs []
    else splitChar sep cs (c :: acc)

/-- Parsing a string into `pathlib` components: split on `/`; `pathlib`
collapses empty components and single-dot components. -/
def parsePath (s : String) : List String :=
  (splitChar (Char.ofNat 47) s.toList []).filter (fun c => c != "" && c != ".")

/-- `PurePath.suffix` of a file name: the dotted extension of the final
component; a leading dot alone opens no suffix. -/
def pySuffix (name : String) : String :=
  match splitChar (Char.ofNat 46) name.toList [] with
  | [] => ""
  | [_] => ""
  | p :: rest => if p == "" && rest.length == 1 then "" else "." ++ rest.getLastD ""

/-- Kernel-reducible `str.lower()` on the character list. -/
def lowerStr (s : String) : String := String.mk (s.toList.map Char.toLower)

/-- The per-split counters dictionary `{"train":0,"val":0,"test":0}`. -/
structure Counts where
  train : ℕ
  val : ℕ
  test : ℕ
deriving DecidableEq

/-- `counts[split_name] += 1`. -/
def bump (c : Counts) (s : String) : Counts :=
  if s = "train" then {c with train := c.train + 1}
  else if s = "val" then {c with val := c.val + 1}
  else if s = "test" then {c with test := c.test + 1}
  else c

/-- Observable side effects of the two scripts. -/
inductive Eff where
  | mkdirP (dir : List String)
  | writeImg (dst : List String)
  | runFfmpeg (src : Item) (dst : List String)
  | writeVideo (dst : List String)
  | attempt (ffmpegBackend : Bool) (src : Item)
  | warn (src : Item)
deriving DecidableEq

/-- Environment oracle for the effectful parts: whether creating a parent
directory succeeds, whether PIL can decode/encode an image, whether the
`ffmpeg` binary exists and exits with status 0 on an item, whether
`opencv-python` is importable, and what `cv2.VideoCapture` sees in a file
(`none`: cannot open; `some k`: `k` decodable frames). -/
structure Env where
  mkdirOk : List String → Bool
  imgOk : Item → Bool
  ffmpegInstalled : Bool
  ffmpegOk : Item → Bool
  cv2Installed : Bool
  frames : Item → Option ℕ

/-- `dst.parent`. -/
def parentDir (p : List String) : List String := p.dropLast

namespace NormalizeImages

/-- The guard `assert abs(sum(ratios) - 1.0) < 1e-6` of `split_list` in
`normalize_and_split_images.py` (line 54).  Python `sum` folds from `0`, so
the float sum is `((0.0 + r1) + r2) + r3`. -/
def ratiosOk (r1 r2 r3 : PyFloat) : Bool :=
  pyLt (pyAbs (pySub (pyAdd (pyAdd (pyAdd lit00 r1) r2) r3) lit10)) lit1em6

/-- `split_list(items, ratios, seed)` of `normalize_and_split_images.py`
(lines 53-59): check the ratio sum (`none` models the raised
`AssertionError`), shuffle the items with a fresh `random.Random(seed)`,
and cut at `n1 = int(n*ratios[0])` and `n2 = int(n*(ratios[0]+ratios[1]))`;
the slices `items[:n1]`, `items[n1:n2]`, `items[n2:]` are the returned
(train, val, test) sequences.  `ratios[2]` is never read. -/
def split_list {α : Type} (items : List α) (r1 r2 r3 : PyFloat) (seed : ℤ) :
    Option (List α × List α × List α) :=
  if ratiosOk r1 r2 r3 then
    let s := pyShuffle seed items
    let n := items.length
    let n1 := (pyInt (pyMul (pyOfNat n) r1)).toNat
    let n2 := (pyInt (pyMul (pyOfNat n) (pyAdd r1 r2))).toNat
    some (s.take n1, (s.drop n1).take (n2 - n1), s.drop n2)
  else none

/-- `IMAGE_EXTS` (line 21). -/
def IMAGE_EXTS : List String := [".jpg", ".jpeg", ".png", ".bmp", ".tiff", ".webp"]

/-- `is_image_file` (lines 23-24): suffix, lower-cased, in the allow-list. -/
def is_image_file (p : Item) : Bool := IMAGE_EXTS.contains (lowerStr (pySuffix (pathName p)))

/-- `files_by_class.setdefault(label, []).extend(vs)` on an insertion-ordered
dictionary held as an association list. -/
def assocExtend : List (String × List Item) → String → List Item → List (String × List Item)
  | [], k, vs => [(k, vs)]
  | (q, ws) :: rest, k, vs =>
    if q = k then (q, ws ++ vs) :: rest else (q, ws) :: assocExtend rest k vs

/-- `gather_image_files(src_root)` (lines 26-39) as a function of the
`os.walk` output: each walk entry is a directory (its path relative to
`src_root`, as components) paired with the file names it directly contains.
Matching files become full paths `rootp / f`; directories without matching
files contribute nothing; the class label is `str(rel)` with separators
normalised to `/`. -/
def gather_image_files (srcRoot : List String)
    (walk : List (List String × List String)) : List (String × List Item) :=
  walk.foldl (fun m e =>
    let imgs := (e.2.map (fun f => (srcRoot ++ e.1) ++ [f])).filter is_image_file
    if imgs.isEmpty then m else assocExtend m (strPath e.1) imgs) []

/-- `resize_and_save` (lines 41-51): `dst_path.parent.mkdir(parents=True)`
runs first, OUTSIDE the `try`, so a directory-creation error escapes the
function (`Except.error`); the decode/resize/save pipeline runs inside a
`try` whose `except Exception` prints a warning naming the source path and
returns normally. -/
def resize_and_save (env : Env) (src : Item) (dst : List String) :
    List Eff × Except String Unit :=
  if env.mkdirOk (parentDir dst) then
    if env.imgOk src then ([.mkdirP (parentDir dst), .writeImg dst], .ok ())
    else ([.mkdirP (parentDir dst), .warn src], .ok ())
  else ([], .error "mkdir failed")

/-- Destination `img_out_base / split_name / "images" / Path(class_label) / name`
(lines 88-89), with `pathlib` collapsing `.` components of the label. -/
def imgDst (out : List String) (split : String) (label : String) (name : String) :
    List String :=
  out ++ ([split, "images"] ++ parsePath label ++ [name])

/-- The innermost loop of `main` (lines 87-93): per item, bump the split
counter, then (unless `--dry_run`) transform; an escaping exception aborts
the whole run with the effects performed so far. -/
def runItems (env : Env) (dry : Bool) (out : List String) (label : String)
    (sn : String) : List Item → Counts → List Eff → (Counts × List Eff) × Option String
  | [], c, effs => ((c, effs), none)
  | it :: rest, c, effs =>
    let c2 := bump c sn
    if dry then runItems env dry out label sn rest c2 effs
    else
      match resize_and_save env it (imgDst out sn label (pathName it)) with
      | (fx, .ok _) => runItems env dry out label sn rest c2 (effs ++ fx)
      | (fx, .error e) => ((c2, effs ++ fx), some e)

/-- The `for split_name, items in mapping` loop of `main` (line 86). -/
def runSplits (env : Env) (dry : Bool) (out : List String) (label : String) :
    List (String × List Item) → Counts → List Eff → (Counts × List Eff) × Option String
  | [], c, effs => ((c, effs), none)
  | (sn, its) :: rest, c, effs =>
    match runItems env dry out label sn its c effs with
    | (st, none) => runSplits env dry out label rest st.1 st.2
    | (st, some e) => (st, some e)

/-- The per-class loop of `main` (lines 83-93): split each class list with
ratios `(0.7, 0.2, 0.1)` and the CLI seed, then place the three splits. -/
def runClasses (env : Env) (dry : Bool) (seed : ℤ) (out : List String) :
    List (String × List Item) → Counts → List Eff → (Counts × List Eff) × Option String
  | [], c, effs => ((c, effs), none)
  | (label, files) :: rest, c, effs =>
    match split_list files Py.lit07 Py.lit02 Py.lit01 seed with
    | none => ((c, effs), some "AssertionError")
    | some (t, v, te) =>
      match runSplits env dry out label [("train", t), ("val", v), ("test", te)] c effs with
      | (st, none) => runClasses env dry seed out rest st.1 st.2
      | (st, some e) => (st, some e)

/-- The whole placement phase of `main` (lines 82-93), starting from zero
counters and an empty effect trace. -/
def mainLoop (env : Env) (dry : Bool) (seed : ℤ) (out : List String)
    (manifest : List (String × List Item)) : (Counts × List Eff) × Option String :=
  runClasses env dry seed out manifest ⟨0, 0, 0⟩ []

end NormalizeImages

namespace NormalizeVideos

/-- `split_list(items, ratios, seed)` of
`normalize_and_reencode_and_split_videos.py` (lines 94-99): identical to
the image version except that there is NO assertion on the ratio sum. -/
def split_list {α : Type} (items : List α) (r1 r2 r3 : PyFloat) (seed : ℤ) :
    List α × List α × List α :=
  let s := pyShuffle seed items
  let n := items.length
  let n1 := (pyInt (pyMul (pyOfNat n) r1)).toNat
  let n2 := (pyInt (pyMul (pyOfNat n) (pyAdd r1 r2))).toNat
  (s.take n1, (s.drop n1).take (n2 - n1), s.drop n2)

/-- `VIDEO_EXTS` (line 19). -/
def VIDEO_EXTS : List String := [".mp4", ".mov", ".avi", ".mkv", ".webm", ".mpeg", ".mpg"]

/-- `is_video_file` (lines 21-22). -/
def is_video_file (p : Item) : Bool := VIDEO_EXTS.contains (lowerStr (pySuffix (pathName p)))

/-- `files_by_class.setdefault(label, []).extend(vs)` (line 33). -/
def assocExtend : List (String × List Item) → String → List Item → List (String × List Item)
  | [], k, vs => [(k, vs)]
  | (q, ws) :: rest, k, vs =>
    if q = k then (q, ws ++ vs) :: rest else (q, ws) :: assocExtend rest k vs

/-- `gather_video_files(src_root)` (lines 24-34), same shape as the image
collector. -/
def gather_video_files (srcRoot : List String)
    (walk : List (List String × List String)) : List (String × List Item) :=
  walk.foldl (fun m e =>
    let vids := (e.2.map (fun f => (srcRoot ++ e.1) ++ [f])).filter is_video_file
    if vids.isEmpty then m else assocExtend m (strPath e.1) vids) []

/-- `ffmpeg_available()` (lines 36-41): a single capability probe of the
host (`subprocess.run(["ffmpeg", "-version"])` inside a `try`). -/
def ffmpeg_available (env : Env) : Bool := env.ffmpegInstalled

/-- `reencode_with_ffmpeg` (lines 43-59): `dst.parent.mkdir(parents=True)`
runs first, OUTSIDE the `try`, so a directory-creation error escapes; the
`subprocess.run(cmd, check=True)` call is inside a `try` catching
`CalledProcessError`, which logs a warning with the source path and returns
`False`; on exit status 0 it returns `True`. -/
def reencode_with_ffmpeg (env : Env) (src : Item) (dst : List String) :
    List Eff × Except String Bool :=
  if env.mkdirOk (parentDir dst) then
    if env.ffmpegOk src then ([.mkdirP (parentDir dst), .runFfmpeg src dst], .ok true)
    else ([.mkdirP (parentDir dst), .runFfmpeg src dst, .warn src], .ok false)
  else ([], .error "mkdir failed")

/-- `reencode_with_opencv` (lines 62-92).  The only `try` in the function
wraps `import cv2`, whose failure logs and returns `False`; an unopenable
source logs and returns `False`; otherwise `dst.parent.mkdir` runs (an
error escapes) and `cv2.VideoWriter` creates the destination file.  The
frame loop then evaluates `canvas = 255 * np.ones(...)` (line 87) — but the
module never imports `numpy`, so `np` is an unbound name: as soon as one
frame is decoded the function raises `NameError: name 'np' is not defined`,
which no handler catches.  Only a zero-frame source completes and returns
`True`. -/
def reencode_with_opencv (env : Env) (src : Item) (dst : List String) :
    List Eff × Except String Bool :=
  if env.cv2Installed then
    match env.frames src with
    | none => ([.warn src], .ok false)
    | some k =>
      if env.mkdirOk (parentDir dst) then
        if k = 0 then ([.mkdirP (parentDir dst), .writeVideo dst], .ok true)
        else ([.mkdirP (parentDir dst), .writeVideo dst],
          .error "NameError: name np is not defined")
      else ([], .error "mkdir failed")
  else ([.warn src], .ok false)

/-- Destination `out_root / split_name / "videos" / Path(class_label) / name`
(lines 135-136). -/
def vidDst (out : List String) (split : String) (label : String) (name : String) :
    List String :=
  out ++ ([split, "videos"] ++ parsePath label ++ [name])

/-- The innermost loop of `main` (lines 134-147): per item, bump the split
counter, then (unless `--dry_run`) invoke the backend chosen by `use_ffmpeg`
(line 140); the trace records which backend each item attempt used.  An
escaping exception aborts the run with the effects performed so far. -/
def runItems (env : Env) (useF : Bool) (dry : Bool) (out : List String)
    (label : String) (sn : String) :
    List Item → Counts → List Eff → (Counts × List Eff) × Option String
  | [], c, effs => ((c, effs), none)
  | it :: rest, c, effs =>
    let c2 := bump c sn
    if dry then runItems env useF dry out label sn rest c2 effs
    else
      let step := if useF then reencode_with_ffmpeg env it (vidDst out sn label (pathName it))
        else reencode_with_opencv env it (vidDst out sn label (pathName it))
      match step with
      | (fx, .ok _) =>
        runItems env useF dry out label sn rest c2 (effs ++ [.attempt useF it] ++ fx)
      | (fx, .error e) => ((c2, effs ++ [.attempt useF it] ++ fx), some e)

/-- The `for split_name, items in mapping` loop of `main` (line 133). -/
def runSplits (env : Env) (useF : Bool) (dry : Bool) (out : List String)
    (label : String) :
    List (String × List Item) → Counts → List Eff → (Counts × List Eff) × Option String
  | [], c, effs => ((c, effs), none)
  | (sn, its) :: rest, c, effs =>
    match runItems env useF dry out label sn its c effs with
    | (st, none) => runSplits env useF dry out label rest st.1 st.2
    | (st, some e) => (st, some e)

/-- The per-class loop of `main` (lines 130-147). -/
def runClasses (env : Env) (useF : Bool) (dry : Bool) (seed : ℤ) (out : List String) :
    List (String × List Item) → Counts → List Eff → (Counts × List Eff) × Option String
  | [], c, effs => ((c, effs), none)
  | (label, vids) :: rest, c, effs =>
    match split_list vids Py.lit07 Py.lit02 Py.lit01 seed with
    | (t, v, te) =>
      match runSplits env useF dry out label [("train", t), ("val", v), ("test", te)] c effs with
      | (st, none) => runClasses env useF dry seed out rest st.1 st.2
      | (st, some e) => (st, some e)

/-- The placement phase of `main` (lines 123-147): the backend is decided
ONCE, before the loop, by the capability probe (line 123), and the same
`use_ffmpeg` flag is consulted for every item. -/
def mainLoop (env : Env) (dry : Bool) (seed : ℤ) (out : List String)
    (manifest : List (String × List Item)) : (Counts × List Eff) × Option String :=
  runClasses env (ffmpeg_available env) dry seed out manifest ⟨0, 0, 0⟩ []

end NormalizeVideos

/-- Iterated counter bump. -/
def bumpN (c : Counts) (sn : String) : ℕ → Counts
  | 0 => c
  | k+1 => bumpN (bump c sn) sn k

/-- One class's contribution to the planned per-split counters. -/
def addClass (seed : ℤ) (c : Counts) (cls : String × List Item) : Counts :=
  match NormalizeVideos.split_list cls.2 lit07 lit02 lit01 seed with
  | (t, v, te) => ⟨c.train + t.length, c.val + v.length, c.test + te.length⟩

/-- The per-split counts planned by the pipelines: per class, the lengths of
the three splits of `split_list` with ratios `(0.7, 0.2, 0.1)`. -/
def plannedCounts (seed : ℤ) (m : List (String × List Item)) : Counts :=
  m.foldl (addClass seed) ⟨0, 0, 0⟩

/-- Total number of collected items. -/
def totalItems (m : List (String × List Item)) : ℕ :=
  (m.map (fun cls => cls.2.length)).sum

/-- Environment in which every directory creation and every transform
succeeds (and every video decodes one frame). -/
def envOK : Env := ⟨fun _ => true, fun _ => true, true, fun _ => true, true, fun _ => some 1⟩

/-- Environment with a failing `mkdir` (e.g. permission denied on the
output tree), everything else functional. -/
def envNoMkdir : Env := ⟨fun _ => false, fun _ => true, true, fun _ => true, true, fun _ => some 1⟩

/-- Environment with `ffmpeg` not installed, `opencv-python` installed, and
every video openable with one decodable frame. -/
def envNoFfmpeg : Env := ⟨fun _ => true, fun _ => true, false, fun _ => true, true, fun _ => some 1⟩

/-- The file names of Scenario A: ten images in one class. -/
def poseFiles : List String := (List.range 10).map (fun i => "img" ++ toString i ++ ".jpg")

/-- The collected items of Scenario A: ten images under
`src/Pose/Wrong/`. -/
def poseItems : List Item :=
  (List.range 10).map (fun i => ["src", "Pose", "Wrong", "img" ++ toString i ++ ".jpg"])

/-- Two videos in one class, used to exercise the OpenCV fallback. -/
def vids2 : List Item := [["src", "PoseA", "a.mp4"], ["src", "PoseA", "b.mp4"]]

/-- Projection of the image-write destinations out of an effect trace. -/
def writeDst : Eff → Option (List String) := fun e =>
  match e with
  | Eff.writeImg d => some d
  | _ => none

namespace Py

/-- `0.7` is the correctly rounded double of the decimal literal: it is a
53-bit dyadic within half an ulp (`2^-54` in the binade `[1/2, 1)`) of
`7/10`. -/
theorem lit07_near : |lit07.toRat - 7/10| ≤ 1/2^54 ∧ lit07.num.natAbs < 2^53 := by
  constructor
  · rw [show lit07.toRat = 6305039478318694/2^53 from rfl]
    rw [abs_le]
    constructor <;> norm_num
  · norm_num [lit07]

/-- `0.2` is the correctly rounded double of the decimal literal (half ulp in
the binade `[1/8, 1/4)` is `2^-56`). -/
theorem lit02_near : |lit02.toRat - 1/5| ≤ 1/2^56 ∧ lit02.num.natAbs < 2^53 := by
  constructor
  · rw [show lit02.toRat = 3602879701896397/2^54 from rfl]
    rw [abs_le]
    constructor <;> norm_num
  · norm_num [lit02]

/-- `0.1` is the correctly rounded double of the decimal literal (half ulp in
the binade `[1/16, 1/8)` is `2^-57`). -/
theorem lit01_near : |lit01.toRat - 1/10| ≤ 1/2^57 ∧ lit01.num.natAbs < 2^53 := by
  constructor
  · rw [show lit01.toRat = 3602879701896397/2^55 from rfl]
    rw [abs_le]
    constructor <;> norm_num
  · norm_num [lit01]

/-- `0.3` is the correctly rounded double of the decimal literal (half ulp in
the binade `[1/4, 1/2)` is `2^-55`). -/
theorem lit03_near : |lit03.toRat - 3/10| ≤ 1/2^55 ∧ lit03.num.natAbs < 2^53 := by
  constructor
  · rw [show lit03.toRat = 5404319552844595/2^54 from rfl]
    rw [abs_le]
    constructor <;> norm_num
  · norm_num [lit03]

/-- `1e-6` is the correctly rounded double of the decimal literal (half ulp
in the binade `[2^-20, 2^-19)` is `2^-73`). -/
theorem lit1em6_near : |lit1em6.toRat - 1/1000000| ≤ 1/2^73 ∧ lit1em6.num.natAbs < 2^53 := by
  constructor
  · rw [show lit1em6.toRat = 4722366482869645/2^72 from rfl]
    rw [abs_le]
    constructor <;> norm_num
  · norm_num [lit1em6]

/-- `nbitsF` does not depend on the fuel once the fuel dominates the input. -/
theorem nbitsF_congr (n : ℕ) : ∀ f g, n ≤ f → n ≤ g → nbitsF f n = nbitsF g n := by
  induction n using Nat.strong_induction_on with
  | _ n ih =>
    intro f g hf hg
    match n, f, g with
    | 0, 0, 0 => rfl
    | 0, 0, _+1 => rfl
    | 0, _+1, 0 => rfl
    | 0, _+1, _+1 => rfl
    | m+1, f+1, g+1 =>
      show nbitsF f ((m+1)/2) + 1 = nbitsF g ((m+1)/2) + 1
      have h1 : (m+1)/2 < m+1 := by omega
      have h2 : (m+1)/2 ≤ f := by omega
      have h3 : (m+1)/2 ≤ g := by omega
      rw [ih ((m+1)/2) h1 f g h2 h3]

/-- Recurrence for the binary length. -/
theorem nbits_rec (n : ℕ) (h : 1 ≤ n) : nbits n = nbits (n/2) + 1 := by
  match n, h with
  | m+1, _ =>
    show nbitsF (m+1) (m+1) = nbitsF ((m+1)/2) ((m+1)/2) + 1
    show nbitsF m ((m+1)/2) + 1 = nbitsF ((m+1)/2) ((m+1)/2) + 1
    rw [nbitsF_congr ((m+1)/2) m ((m+1)/2) (by omega) (by omega)]

/-- Upper bound defining the binary length. -/
theorem lt_two_pow_nbits (n : ℕ) : n < 2^(nbits n) := by
  induction n using Nat.strong_induction_on with
  | _ n ih =>
    match n with
    | 0 => simp [nbits, nbitsF]
    | m+1 =>
      rw [nbits_rec (m+1) (by omega)]
      have h1 : (m+1)/2 < m+1 := by omega
      have h2 := ih ((m+1)/2) h1
      have h3 : 2^(nbits ((m+1)/2) + 1) = 2 * 2^(nbits ((m+1)/2)) := by ring
      omega

/-- Lower bound defining the binary length. -/
theorem two_pow_nbits_le (n : ℕ) (h : 1 ≤ n) : 2^(nbits n - 1) ≤ n := by
  induction n using Nat.strong_induction_on with
  | _ n ih =>
    match n with
    | 1 => simp [nbits, nbitsF]
    | m+2 =>
      rw [nbits_rec (m+2) (by omega)]
      have h1 : (m+2)/2 < m+2 := by omega
      have h2 : 1 ≤ (m+2)/2 := by omega
      have h3 := ih ((m+2)/2) h1 h2
      have h4 : 1 ≤ nbits ((m+2)/2) := by
        rw [nbits_rec ((m+2)/2) h2]; omega
      have h5 : nbits ((m+2)/2) + 1 - 1 = (nbits ((m+2)/2) - 1) + 1 := by omega
      rw [h5, pow_succ]
      omega

/-- A number with at most 53 binary digits is below `2^53`. -/
theorem lt_two_pow_53 (N : ℕ) (h : nbits N ≤ 53) : N < 2^53 :=
  lt_of_lt_of_le (lt_two_pow_nbits N) (Nat.pow_le_pow_right (by omega) h)

/-- Round-to-nearest at shift `s` moves the value by at most `2^(s-1)`. -/
theorem rne_bounds (N s : ℕ) (hs : 1 ≤ s) :
    N ≤ rne N s * 2^s + 2^(s-1) ∧ rne N s * 2^s ≤ N + 2^(s-1) := by
  have hpos : 0 < 2^s := Nat.pos_pow_of_pos s (by omega)
  have hdm := Nat.div_add_mod N (2^s)
  have hm : N % 2^s < 2^s := Nat.mod_lt _ hpos
  have h2 : 2^s = 2 * 2^(s-1) := by
    conv_lhs => rw [show s = (s-1)+1 by omega]
    ring
  have hA1 : N / 2^s * 2^s ≤ N := Nat.div_mul_le_self N (2^s)
  have hA2 : N < N / 2^s * 2^s + 2^s := by
    calc N = 2^s * (N / 2^s) + N % 2^s := (Nat.div_add_mod N (2^s)).symm
    _ < 2^s * (N / 2^s) + 2^s := Nat.add_lt_add_left hm _
    _ = N / 2^s * 2^s + 2^s := by ring
  have hrr : N % 2^s = N - N / 2^s * 2^s := by
    have h3 := Nat.div_add_mod N (2^s)
    rw [Nat.mul_comm] at h3
    omega
  unfold rne
  split_ifs <;> constructor <;>
    · try simp only [add_mul, one_mul]
      omega

/-- `round53N` overshoots by at most `N / 2^53`. -/
theorem round53N_le (N : ℕ) : round53N N ≤ N + N / 2^53 := by
  unfold round53N
  split_ifs with h
  · omega
  · have hs : 1 ≤ nbits N - 53 := by omega
    have hb := (rne_bounds N (nbits N - 53) hs).2
    have hN1 : 1 ≤ N := by
      by_contra hc
      have : N = 0 := by omega
      subst this
      simp [nbits, nbitsF] at h
    have hlow := two_pow_nbits_le N hN1
    have hple : 2^(nbits N - 53 - 1) ≤ N / 2^53 := by
      rw [Nat.le_div_iff_mul_le (by positivity)]
      calc 2^(nbits N - 53 - 1) * 2^53 = 2^(nbits N - 53 - 1 + 53) := by rw [pow_add]
        _ ≤ 2^(nbits N - 1) := Nat.pow_le_pow_right (by omega) (by omega)
        _ ≤ N := hlow
    omega

/-- `round53N` undershoots by at most `N / 2^53`. -/
theorem le_round53N (N : ℕ) : N ≤ round53N N + N / 2^53 := by
  unfold round53N
  split_ifs with h
  · omega
  · have hs : 1 ≤ nbits N - 53 := by omega
    have hb := (rne_bounds N (nbits N - 53) hs).1
    have hN1 : 1 ≤ N := by
      by_contra hc
      have : N = 0 := by omega
      subst this
      simp [nbits, nbitsF] at h
    have hlow := two_pow_nbits_le N hN1
    have hple : 2^(nbits N - 53 - 1) ≤ N / 2^53 := by
      rw [Nat.le_div_iff_mul_le (by positivity)]
      calc 2^(nbits N - 53 - 1) * 2^53 = 2^(nbits N - 53 - 1 + 53) := by rw [pow_add]
        _ ≤ 2^(nbits N - 1) := Nat.pow_le_pow_right (by omega) (by omega)
        _ ≤ N := hlow
    omega

/-- Rational form of the relative rounding error, upper side. -/
theorem round53N_le_rat (N : ℕ) : (round53N N : ℚ) ≤ (N : ℚ) * (1 + 1/2^53) := by
  have h1 : (round53N N : ℚ) ≤ (N : ℚ) + ((N / 2^53 : ℕ) : ℚ) := by
    have := round53N_le N
    exact_mod_cast Nat.cast_le.mpr this
  have h2 : ((N / 2^53 : ℕ) : ℚ) ≤ (N : ℚ) / ((2^53 : ℕ) : ℚ) := Nat.cast_div_le
  have h3 : ((2^53 : ℕ) : ℚ) = (2:ℚ)^53 := by push_cast; ring
  rw [h3] at h2
  nlinarith [h2]

/-- Rational form of the relative rounding error, lower side. -/
theorem le_round53N_rat (N : ℕ) : (N : ℚ) * (1 - 1/2^53) ≤ (round53N N : ℚ) := by
  have h1 : (N : ℚ) ≤ (round53N N : ℚ) + ((N / 2^53 : ℕ) : ℚ) := by
    have := le_round53N N
    exact_mod_cast Nat.cast_le.mpr this
  have h2 : ((N / 2^53 : ℕ) : ℚ) ≤ (N : ℚ) / ((2^53 : ℕ) : ℚ) := Nat.cast_div_le
  have h3 : ((2^53 : ℕ) : ℚ) = (2:ℚ)^53 := by push_cast; ring
  rw [h3] at h2
  nlinarith [h2]

/-- Prepending a stored element and writing another in its old slot is a
permutation: `b :: t.set m x ~ x :: t` when `t[m] = b`. -/
theorem cons_set_perm {α : Type} :
    ∀ (t : List α) (m : ℕ) (x b : α), t.get? m = some b →
      (b :: t.set m x).Perm (x :: t) := by
  intro t
  induction t with
  | nil => intro m x b h; simp at h
  | cons y t ih =>
    intro m x b h
    match m with
    | 0 =>
      have hb : b = y := by simpa using h.symm
      subst hb
      exact List.Perm.swap x b t
    | k+1 =>
      have h2 : t.get? k = some b := h
      show (b :: y :: t.set k x).Perm (x :: y :: t)
      exact (List.Perm.swap y b (t.set k x)).trans
        ((List.Perm.cons y (ih k x b h2)).trans (List.Perm.swap x y t))

/-- Writing the elements read at two positions back in exchanged order is a
permutation. -/
theorem set_set_perm {α : Type} :
    ∀ (l : List α) (i j : ℕ) (a b : α), l.get? i = some a → l.get? j = some b →
      ((l.set i b).set j a).Perm l := by
  intro l
  induction l with
  | nil => intro i j a b h; simp at h
  | cons x t ih =>
    intro i j a b hi hj
    match i, j with
    | 0, 0 =>
      have ha : a = x := by simpa using hi.symm
      have hb : b = x := by simpa using hj.symm
      subst ha; subst hb
      simp
    | 0, m+1 =>
      have ha : a = x := by simpa using hi.symm
      subst ha
      show (b :: t.set m a).Perm (a :: t)
      exact cons_set_perm t m a b hj
    | k+1, 0 =>
      have hb : b = x := by simpa using hj.symm
      subst hb
      show (a :: t.set k b).Perm (b :: t)
      exact cons_set_perm t k b a hi
    | k+1, m+1 =>
      show (x :: (t.set k b).set m a).Perm (x :: t)
      exact List.Perm.cons x (ih k m a b hi hj)

/-- A `listSwap` is a permutation of the list. -/
theorem listSwap_perm {α : Type} (l : List α) (i j : ℕ) :
    (listSwap l i j).Perm l := by
  unfold listSwap
  match hi : l.get? i, hj : l.get? j with
  | some a, some b => exact set_set_perm l i j a b hi hj
  | some _, none => exact List.Perm.refl l
  | none, _ => exact List.Perm.refl l

/-- The whole Fisher-Yates pass is a permutation of the list. -/
theorem fyAux_perm {α : Type} (seed : ℤ) :
    ∀ (c : ℕ) (l : List α), (fyAux seed c l).Perm l := by
  intro c
  induction c with
  | zero => intro l; exact List.Perm.refl l
  | succ c ih =>
    intro l
    exact (ih _).trans (listSwap_perm l (c+1) (randbelow seed (c+1) (c+2)))

/-- `pyShuffle` permutes its input. -/
theorem pyShuffle_perm {α : Type} (seed : ℤ) (l : List α) :
    (pyShuffle seed l).Perm l :=
  fyAux_perm seed (l.length - 1) l

/-- `pyShuffle` preserves length. -/
theorem pyShuffle_length {α : Type} (seed : ℤ) (l : List α) :
    (pyShuffle seed l).length = l.length :=
  (pyShuffle_perm seed l).length_eq

/-- `pyShuffle` preserves freedom from duplicates. -/
theorem pyShuffle_nodup {α : Type} (seed : ℤ) (l : List α) (h : l.Nodup) :
    (pyShuffle seed l).Nodup :=
  ((pyShuffle_perm seed l).nodup_iff).mpr h

/-- `round53Z` on a natural number. -/
theorem round53Z_natCast (n : ℕ) : round53Z (n : ℤ) = ((round53N n : ℕ) : ℤ) := by
  unfold round53Z
  rw [if_pos (Int.natCast_nonneg n)]
  norm_num

/-- `round53Z` of a nonnegative integer. -/
theorem round53Z_of_nonneg (z : ℤ) (h : 0 ≤ z) :
    round53Z z = ((round53N z.toNat : ℕ) : ℤ) := by
  unfold round53Z
  rw [if_pos h]

/-- `round53Z` preserves nonnegativity. -/
theorem round53Z_nonneg (z : ℤ) (h : 0 ≤ z) : 0 ≤ round53Z z := by
  rw [round53Z_of_nonneg z h]
  exact Int.natCast_nonneg _

/-- The numerator of a product of nonnegative doubles is nonnegative. -/
theorem pyMul_num_nonneg (x y : PyFloat) (hx : 0 ≤ x.num) (hy : 0 ≤ y.num) :
    0 ≤ (pyMul x y).num :=
  round53Z_nonneg _ (mul_nonneg hx hy)

/-- Value of `float(n)`. -/
theorem pyOfNat_toRat (n : ℕ) : (pyOfNat n).toRat = ((round53N n : ℕ) : ℚ) := by
  simp [pyOfNat, PyFloat.toRat, round53Z_natCast]

/-- `float(n)` is nonnegative. -/
theorem pyOfNat_num_nonneg (n : ℕ) : 0 ≤ (pyOfNat n).num :=
  round53Z_nonneg _ (Int.natCast_nonneg n)

/-- Upper relative-error bound for `float(n)`. -/
theorem pyOfNat_le (n : ℕ) : (pyOfNat n).toRat ≤ (n : ℚ) * (1 + 1/2^53) := by
  rw [pyOfNat_toRat]
  exact round53N_le_rat n

/-- Lower relative-error bound for `float(n)`. -/
theorem le_pyOfNat (n : ℕ) : (n : ℚ) * (1 - 1/2^53) ≤ (pyOfNat n).toRat := by
  rw [pyOfNat_toRat]
  exact le_round53N_rat n

/-- The value of a nonnegative-by-nonnegative IEEE product lies within one
relative rounding error of the exact product. -/
theorem pyMul_bounds (x y : PyFloat) (hx : 0 ≤ x.num) (hy : 0 ≤ y.num) :
    x.toRat * y.toRat * (1 - 1/2^53) ≤ (pyMul x y).toRat ∧
    (pyMul x y).toRat ≤ x.toRat * y.toRat * (1 + 1/2^53) := by
  have hprod : (0:ℤ) ≤ x.num * y.num := mul_nonneg hx hy
  have hP : (((x.num * y.num).toNat : ℕ) : ℚ) = (x.num : ℚ) * (y.num : ℚ) := by
    have h0 : ((x.num * y.num).toNat : ℤ) = x.num * y.num := Int.toNat_of_nonneg hprod
    calc (((x.num * y.num).toNat : ℕ) : ℚ) = (((x.num * y.num).toNat : ℤ) : ℚ) := by
          push_cast
          ring
    _ = ((x.num * y.num : ℤ) : ℚ) := by rw [h0]
    _ = (x.num : ℚ) * (y.num : ℚ) := by push_cast; ring
  have hval : (pyMul x y).toRat
      = ((round53N (x.num * y.num).toNat : ℕ) : ℚ) / 2^(x.den + y.den) := by
    simp only [pyMul, PyFloat.toRat]
    rw [round53Z_of_nonneg _ hprod]
    norm_num
  have hD : (0:ℚ) < 2^(x.den + y.den) := by positivity
  have hsplit : ∀ c : ℚ, x.toRat * y.toRat * c
      = ((x.num : ℚ) * (y.num : ℚ) * c) / 2^(x.den + y.den) := by
    intro c
    simp only [PyFloat.toRat]
    rw [pow_add]
    field_simp
    try ring
  constructor
  · rw [hval, hsplit (1 - 1/2^53)]
    rw [div_le_div_iff_of_pos_right hD]
    rw [← hP]
    exact le_round53N_rat _
  · rw [hval, hsplit (1 + 1/2^53)]
    rw [div_le_div_iff_of_pos_right hD]
    rw [← hP]
    exact round53N_le_rat _

/-- On nonnegative doubles, Python `int()` is the natural floor of the exact
value. -/
theorem pyInt_toNat_floor (x : PyFloat) (hx : 0 ≤ x.num) :
    (pyInt x).toNat = ⌊x.toRat⌋₊ := by
  unfold pyInt
  rw [if_pos hx]
  rw [Int.toNat_natCast]
  rw [← Nat.floor_div_eq_div (α := ℚ) x.num.toNat (2^x.den)]
  congr 1
  simp only [PyFloat.toRat]
  have h1 : ((x.num.toNat : ℕ) : ℚ) = ((x.num : ℤ) : ℚ) := by
    exact_mod_cast congrArg (Int.cast : ℤ → ℚ) (Int.toNat_of_nonneg hx)
  rw [h1]
  push_cast
  ring

/-- The double sum `0.7 + 0.2` (computed, with the tie at
`16212958658533785/2^54` broken to the even mantissa: the value is
`0.8999999999999999…`, one ulp below `0.9`). -/
theorem pyAdd_lit07_lit02 : pyAdd lit07 lit02 = ⟨16212958658533784, 54⟩ := by decide

/-- `n2 ≤ n`: the second cut never exceeds the list length, because the
double `0.7 + 0.2` is below `1` by far more than the accumulated relative
rounding error of `float(n)` and of the product. -/
theorem splitN2_le (n : ℕ) : splitN2 n ≤ n := by
  unfold splitN2
  rw [pyAdd_lit07_lit02]
  have hx : 0 ≤ (pyOfNat n).num := pyOfNat_num_nonneg n
  have hy : (0:ℤ) ≤ (⟨16212958658533784, 54⟩ : PyFloat).num := by norm_num
  rw [pyInt_toNat_floor _ (pyMul_num_nonneg _ _ hx hy)]
  have hub := (pyMul_bounds (pyOfNat n) ⟨16212958658533784, 54⟩ hx hy).2
  have hr : (⟨16212958658533784, 54⟩ : PyFloat).toRat = 16212958658533784/2^54 := by
    simp [PyFloat.toRat]
  have hxub : (pyOfNat n).toRat ≤ (n : ℚ) * (1 + 1/2^53) := pyOfNat_le n
  have hnn : (0:ℚ) ≤ (n : ℚ) := Nat.cast_nonneg n
  have hfinal : (pyMul (pyOfNat n) ⟨16212958658533784, 54⟩).toRat ≤ (n : ℚ) := by
    have step1 : (pyMul (pyOfNat n) ⟨16212958658533784, 54⟩).toRat
        ≤ ((n : ℚ) * (1 + 1/2^53)) * (16212958658533784/2^54) * (1 + 1/2^53) := by
      rw [hr] at hub
      have hc : (0:ℚ) ≤ (16212958658533784/2^54 : ℚ) * (1 + 1/2^53) := by norm_num
      nlinarith [hub, hxub, hc, (pyOfNat n).toRat, hnn]
    have step2 : ((n : ℚ) * (1 + 1/2^53)) * (16212958658533784/2^54) * (1 + 1/2^53)
        ≤ (n : ℚ) * 1 := by
      have hcon : ((1:ℚ) + 1/2^53) * (16212958658533784/2^54) * (1 + 1/2^53) ≤ 1 := by
        norm_num
      nlinarith [hcon, hnn]
    calc (pyMul (pyOfNat n) ⟨16212958658533784, 54⟩).toRat
        ≤ ((n : ℚ) * (1 + 1/2^53)) * (16212958658533784/2^54) * (1 + 1/2^53) := step1
    _ ≤ (n : ℚ) * 1 := step2
    _ = (n : ℚ) := by ring
  calc ⌊(pyMul (pyOfNat n) ⟨16212958658533784, 54⟩).toRat⌋₊
      ≤ ⌊(n : ℚ)⌋₊ := Nat.floor_mono hfinal
  _ = n := Nat.floor_natCast n

/-- `n1 ≤ n2`: the first cut never exceeds the second, because the double
`0.7` times the worst-case overestimate stays below the double `0.7 + 0.2`
times the worst-case underestimate. -/
theorem splitN1_le_splitN2 (n : ℕ) : splitN1 n ≤ splitN2 n := by
  unfold splitN1 splitN2
  rw [pyAdd_lit07_lit02]
  have hx : 0 ≤ (pyOfNat n).num := pyOfNat_num_nonneg n
  have hy1 : (0:ℤ) ≤ (lit07 : PyFloat).num := by norm_num [lit07]
  have hy2 : (0:ℤ) ≤ (⟨16212958658533784, 54⟩ : PyFloat).num := by norm_num
  rw [pyInt_toNat_floor _ (pyMul_num_nonneg _ _ hx hy1)]
  rw [pyInt_toNat_floor _ (pyMul_num_nonneg _ _ hx hy2)]
  apply Nat.floor_mono
  have hub := (pyMul_bounds (pyOfNat n) lit07 hx hy1).2
  have hlb := (pyMul_bounds (pyOfNat n) ⟨16212958658533784, 54⟩ hx hy2).1
  have hr7 : (lit07 : PyFloat).toRat = 6305039478318694/2^53 := by
    simp [PyFloat.toRat, lit07]
  have hr9 : (⟨16212958658533784, 54⟩ : PyFloat).toRat = 16212958658533784/2^54 := by
    simp [PyFloat.toRat]
  rw [hr7] at hub
  rw [hr9] at hlb
  have hvnn : (0:ℚ) ≤ (pyOfNat n).toRat := by
    simp only [PyFloat.toRat, pyOfNat]
    have := round53Z_nonneg (n : ℤ) (Int.natCast_nonneg n)
    positivity
  have hcon : (6305039478318694/2^53 : ℚ) * (1 + 1/2^53)
      ≤ (16212958658533784/2^54 : ℚ) * (1 - 1/2^53) := by norm_num
  nlinarith [hub, hlb, hvnn, hcon]

end Py

/-- The assertion accepts the default ratios `(0.7, 0.2, 0.1)`: the float
sum is `0.9999999999999999` and differs from `1.0` by `2^-53 < 1e-6`. -/
theorem ratiosOk_default : NormalizeImages.ratiosOk lit07 lit02 lit01 = true := by decide

/-- With valid ratios the image `split_list` equals the video one. -/
theorem split_images_default_eq {α : Type} (items : List α) (seed : ℤ) :
    NormalizeImages.split_list items lit07 lit02 lit01 seed
      = some (NormalizeVideos.split_list items lit07 lit02 lit01 seed) := by
  unfold NormalizeImages.split_list NormalizeVideos.split_list
  rw [ratiosOk_default]
  rfl

/-- For the default ratios the three returned slices concatenate back to the
shuffled list. -/
theorem split_videos_concat {α : Type} (items : List α) (seed : ℤ) :
    (NormalizeVideos.split_list items lit07 lit02 lit01 seed).1
      ++ (NormalizeVideos.split_list items lit07 lit02 lit01 seed).2.1
      ++ (NormalizeVideos.split_list items lit07 lit02 lit01 seed).2.2
    = pyShuffle seed items := by
  have h12 := splitN1_le_splitN2 items.length
  show (pyShuffle seed items).take (splitN1 items.length)
      ++ ((pyShuffle seed items).drop (splitN1 items.length)).take
          (splitN2 items.length - splitN1 items.length)
      ++ (pyShuffle seed items).drop (splitN2 items.length)
    = pyShuffle seed items
  rw [List.append_assoc]
  have hdd : (pyShuffle seed items).drop (splitN2 items.length)
      = (((pyShuffle seed items)).drop (splitN1 items.length)).drop
          (splitN2 items.length - splitN1 items.length) := by
    rw [List.drop_drop]
    congr 1
    omega
  rw [hdd, List.take_append_drop, List.take_append_drop]

/-- For the default ratios the three returned slices are a permutation of
the input items. -/
theorem split_videos_perm {α : Type} (items : List α) (seed : ℤ) :
    ((NormalizeVideos.split_list items lit07 lit02 lit01 seed).1
      ++ (NormalizeVideos.split_list items lit07 lit02 lit01 seed).2.1
      ++ (NormalizeVideos.split_list items lit07 lit02 lit01 seed).2.2).Perm items := by
  rw [split_videos_concat]
  exact pyShuffle_perm seed items

/-- Lengths of the three slices for the default ratios. -/
theorem split_videos_lengths {α : Type} (items : List α) (seed : ℤ) :
    (NormalizeVideos.split_list items lit07 lit02 lit01 seed).1.length
        = splitN1 items.length
    ∧ (NormalizeVideos.split_list items lit07 lit02 lit01 seed).2.1.length
        = splitN2 items.length - splitN1 items.length
    ∧ (NormalizeVideos.split_list items lit07 lit02 lit01 seed).2.2.length
        = items.length - splitN2 items.length := by
  have h12 := splitN1_le_splitN2 items.length
  have h2n := splitN2_le items.length
  have hlen : (pyShuffle seed items).length = items.length := pyShuffle_length seed items
  refine ⟨?_, ?_, ?_⟩
  · show ((pyShuffle seed items).take (splitN1 items.length)).length = _
    rw [List.length_take, hlen]
    omega
  · show (((pyShuffle seed items).drop (splitN1 items.length)).take
        (splitN2 items.length - splitN1 items.length)).length = _
    rw [List.length_take, List.length_drop, hlen]
    omega
  · show ((pyShuffle seed items).drop (splitN2 items.length)).length = _
    rw [List.length_drop, hlen]

/-- For duplicate-free items the three slices are pairwise disjoint. -/
theorem split_videos_disjoint {α : Type} (items : List α) (seed : ℤ)
    (h : items.Nodup) :
    (NormalizeVideos.split_list items lit07 lit02 lit01 seed).1.Disjoint
        (NormalizeVideos.split_list items lit07 lit02 lit01 seed).2.1
    ∧ (NormalizeVideos.split_list items lit07 lit02 lit01 seed).1.Disjoint
        (NormalizeVideos.split_list items lit07 lit02 lit01 seed).2.2
    ∧ (NormalizeVideos.split_list items lit07 lit02 lit01 seed).2.1.Disjoint
        (NormalizeVideos.split_list items lit07 lit02 lit01 seed).2.2 := by
  have hnd : ((NormalizeVideos.split_list items lit07 lit02 lit01 seed).1
      ++ (NormalizeVideos.split_list items lit07 lit02 lit01 seed).2.1
      ++ (NormalizeVideos.split_list items lit07 lit02 lit01 seed).2.2).Nodup := by
    rw [split_videos_concat]
    exact pyShuffle_nodup seed items h
  rw [List.append_assoc] at hnd
  rw [List.nodup_append] at hnd
  obtain ⟨h1, h23, hd1⟩ := hnd
  rw [List.nodup_append] at h23
  obtain ⟨h2, h3, hd23⟩ := h23
  rw [List.disjoint_append_right] at hd1
  exact ⟨hd1.1, hd1.2, hd23⟩

/-- `bumpN` on the key `"train"`. -/
theorem bumpN_train : ∀ (n : ℕ) (c : Counts), bumpN c "train" n = ⟨c.train + n, c.val, c.test⟩ := by
  intro n
  induction n with
  | zero => intro c; rfl
  | succ k ih =>
    intro c
    show bumpN (bump c "train") "train" k = _
    rw [ih]
    show (⟨c.train + 1 + k, c.val, c.test⟩ : Counts) = _
    congr 1
    omega

/-- `bumpN` on the key `"val"`. -/
theorem bumpN_val : ∀ (n : ℕ) (c : Counts), bumpN c "val" n = ⟨c.train, c.val + n, c.test⟩ := by
  intro n
  induction n with
  | zero => intro c; rfl
  | succ k ih =>
    intro c
    show bumpN (bump c "val") "val" k = _
    rw [ih]
    show (⟨c.train, c.val + 1 + k, c.test⟩ : Counts) = _
    congr 1
    omega

/-- `bumpN` on the key `"test"`. -/
theorem bumpN_test : ∀ (n : ℕ) (c : Counts), bumpN c "test" n = ⟨c.train, c.val, c.test + n⟩ := by
  intro n
  induction n with
  | zero => intro c; rfl
  | succ k ih =>
    intro c
    show bumpN (bump c "test") "test" k = _
    rw [ih]
    show (⟨c.train, c.val, c.test + 1 + k⟩ : Counts) = _
    congr 1
    omega

/-- In dry-run mode the image item loop only counts. -/
theorem runItemsI_dry (env : Env) (out : List String) (label sn : String) :
    ∀ (its : List Item) (c : Counts) (effs : List Eff),
      NormalizeImages.runItems env true out label sn its c effs
        = ((bumpN c sn its.length, effs), none) := by
  intro its
  induction its with
  | nil => intro c effs; rfl
  | cons it rest ih => intro c effs; exact ih (bump c sn) effs

/-- In dry-run mode the video item loop only counts. -/
theorem runItemsV_dry (env : Env) (useF : Bool) (out : List String) (label sn : String) :
    ∀ (its : List Item) (c : Counts) (effs : List Eff),
      NormalizeVideos.runItems env useF true out label sn its c effs
        = ((bumpN c sn its.length, effs), none) := by
  intro its
  induction its with
  | nil => intro c effs; rfl
  | cons it rest ih => intro c effs; exact ih (bump c sn) effs

/-- In dry-run mode the image split loop adds the three split lengths. -/
theorem runSplitsI_dry (env : Env) (out : List String) (label : String)
    (t v te : List Item) (c : Counts) (effs : List Eff) :
    NormalizeImages.runSplits env true out label
        [("train", t), ("val", v), ("test", te)] c effs
      = ((⟨c.train + t.length, c.val + v.length, c.test + te.length⟩, effs), none) := by
  simp only [NormalizeImages.runSplits, runItemsI_dry, bumpN_train, bumpN_val, bumpN_test]

/-- In dry-run mode the video split loop adds the three split lengths. -/
theorem runSplitsV_dry (env : Env) (useF : Bool) (out : List String) (label : String)
    (t v te : List Item) (c : Counts) (effs : List Eff) :
    NormalizeVideos.runSplits env useF true out label
        [("train", t), ("val", v), ("test", te)] c effs
      = ((⟨c.train + t.length, c.val + v.length, c.test + te.length⟩, effs), none) := by
  simp only [NormalizeVideos.runSplits, runItemsV_dry, bumpN_train, bumpN_val, bumpN_test]

/-- In dry-run mode the image class loop computes the planned counts and
performs no effect. -/
theorem runClassesI_dry (env : Env) (seed : ℤ) (out : List String) :
    ∀ (m : List (String × List Item)) (c : Counts) (effs : List Eff),
      NormalizeImages.runClasses env true seed out m c effs
        = ((m.foldl (addClass seed) c, effs), none) := by
  intro m
  induction m with
  | nil => intro c effs; rfl
  | cons cls rest ih =>
    intro c effs
    obtain ⟨label, files⟩ := cls
    simp only [NormalizeImages.runClasses]
    rw [split_images_default_eq]
    rcases hs : NormalizeVideos.split_list files lit07 lit02 lit01 seed with ⟨t, v, te⟩
    simp only [runSplitsI_dry]
    rw [ih]
    simp only [List.foldl_cons]
    congr 2
    unfold addClass
    rw [hs]

/-- In dry-run mode the video class loop computes the planned counts and
performs no effect. -/
theorem runClassesV_dry (env : Env) (useF : Bool) (seed : ℤ) (out : List String) :
    ∀ (m : List (String × List Item)) (c : Counts) (effs : List Eff),
      NormalizeVideos.runClasses env useF true seed out m c effs
        = ((m.foldl (addClass seed) c, effs), none) := by
  intro m
  induction m with
  | nil => intro c effs; rfl
  | cons cls rest ih =>
    intro c effs
    obtain ⟨label, files⟩ := cls
    simp only [NormalizeVideos.runClasses]
    rcases hs : NormalizeVideos.split_list files lit07 lit02 lit01 seed with ⟨t, v, te⟩
    simp only [runSplitsV_dry]
    rw [ih]
    simp only [List.foldl_cons]
    congr 2
    unfold addClass
    rw [hs]

/-- A class adds exactly its size to the sum of the planned counters. -/
theorem addClass_total (seed : ℤ) (c : Counts) (cls : String × List Item) :
    (addClass seed c cls).train + (addClass seed c cls).val + (addClass seed c cls).test
      = c.train + c.val + c.test + cls.2.length := by
  obtain ⟨h1, h2, h3⟩ := split_videos_lengths cls.2 seed
  have h12 := splitN1_le_splitN2 cls.2.length
  have h2n := splitN2_le cls.2.length
  unfold addClass
  rcases hs : NormalizeVideos.split_list cls.2 lit07 lit02 lit01 seed with ⟨t, v, te⟩
  rw [hs] at h1 h2 h3
  dsimp only at h1 h2 h3 ⊢
  omega

/-- The planned counters sum to the total number of items. -/
theorem plannedCounts_total (seed : ℤ) (m : List (String × List Item)) :
    (plannedCounts seed m).train + (plannedCounts seed m).val + (plannedCounts seed m).test
      = totalItems m := by
  unfold plannedCounts totalItems
  suffices h : ∀ (mm : List (String × List Item)) (c : Counts),
      (mm.foldl (addClass seed) c).train + (mm.foldl (addClass seed) c).val
          + (mm.foldl (addClass seed) c).test
        = c.train + c.val + c.test + (mm.map (fun cls => cls.2.length)).sum by
    simpa using h m ⟨0, 0, 0⟩
  intro mm
  induction mm with
  | nil => intro c; simp
  | cons cls rest ih =>
    intro c
    simp only [List.foldl_cons, List.map_cons, List.sum_cons]
    rw [ih (addClass seed c cls)]
    have := addClass_total seed c cls
    omega

/-- The ffmpeg transform emits no backend-attempt marker of its own. -/
theorem ffmpeg_no_attempt (env : Env) (src : Item) (dst : List String) (b : Bool) (s : Item) :
    Eff.attempt b s ∉ (NormalizeVideos.reencode_with_ffmpeg env src dst).1 := by
  unfold NormalizeVideos.reencode_with_ffmpeg
  split_ifs <;> simp

/-- The OpenCV transform emits no backend-attempt marker of its own. -/
theorem opencv_no_attempt (env : Env) (src : Item) (dst : List String) (b : Bool) (s : Item) :
    Eff.attempt b s ∉ (NormalizeVideos.reencode_with_opencv env src dst).1 := by
  unfold NormalizeVideos.reencode_with_opencv
  rcases henv : env.frames src with _ | k
  all_goals dsimp only
  all_goals split_ifs <;> simp

/-- Whichever backend the probe selected, its per-item transform emits no
attempt marker. -/
theorem step_no_attempt (env : Env) (useF : Bool) (src : Item) (dst : List String)
    (b : Bool) (s : Item) :
    Eff.attempt b s ∉ (if useF then NormalizeVideos.reencode_with_ffmpeg env src dst
      else NormalizeVideos.reencode_with_opencv env src dst).1 := by
  cases useF
  · exact opencv_no_attempt env src dst b s
  · exact ffmpeg_no_attempt env src dst b s

/-- Extending a trace by one attempt marker with the selected backend and
marker-free transform effects preserves the backend invariant. -/
theorem attempt_inv_extend (useF : Bool) (it : Item) (effs fx : List Eff)
    (h : ∀ b s, Eff.attempt b s ∈ effs → b = useF)
    (hfx : ∀ b s, Eff.attempt b s ∉ fx) :
    ∀ b s, Eff.attempt b s ∈ effs ++ [Eff.attempt useF it] ++ fx → b = useF := by
  intro b s hm
  simp only [List.mem_append, List.mem_singleton] at hm
  rcases hm with (hm | hm) | hm
  · exact h b s hm
  · injection hm
  · exact absurd hm (hfx b s)

/-- Every attempt marker the video item loop adds carries the backend it was
given. -/
theorem runItemsV_attempt (env : Env) (useF : Bool) (dry : Bool) (out : List String)
    (label sn : String) :
    ∀ (its : List Item) (c : Counts) (effs : List Eff),
      (∀ b s, Eff.attempt b s ∈ effs → b = useF) →
      ∀ b s, Eff.attempt b s ∈ (NormalizeVideos.runItems env useF dry out label sn its c effs).1.2
        → b = useF := by
  intro its
  induction its with
  | nil => intro c effs h b s hm; exact h b s hm
  | cons it rest ih =>
    intro c effs h
    simp only [NormalizeVideos.runItems]
    by_cases hdry : dry = true
    · rw [if_pos hdry]
      exact ih (bump c sn) effs h
    · rw [if_neg hdry]
      rcases hstep : (if useF then NormalizeVideos.reencode_with_ffmpeg env it
          (NormalizeVideos.vidDst out sn label (pathName it))
        else NormalizeVideos.reencode_with_opencv env it
          (NormalizeVideos.vidDst out sn label (pathName it))) with ⟨fx, res⟩
      have hfx : ∀ b s, Eff.attempt b s ∉ fx := by
        intro b s
        have hna := step_no_attempt env useF it
          (NormalizeVideos.vidDst out sn label (pathName it)) b s
        rw [hstep] at hna
        exact hna
      have hext := attempt_inv_extend useF it effs fx h hfx
      cases res with
      | ok r => exact ih (bump c sn) (effs ++ [Eff.attempt useF it] ++ fx) hext
      | error e => intro b s hm; exact hext b s hm

/-- The backend invariant passes through the video split loop. -/
theorem runSplitsV_attempt (env : Env) (useF : Bool) (dry : Bool) (out : List String)
    (label : String) :
    ∀ (sp : List (String × List Item)) (c : Counts) (effs : List Eff),
      (∀ b s, Eff.attempt b s ∈ effs → b = useF) →
      ∀ b s, Eff.attempt b s ∈ (NormalizeVideos.runSplits env useF dry out label sp c effs).1.2
        → b = useF := by
  intro sp
  induction sp with
  | nil => intro c effs h b s hm; exact h b s hm
  | cons hd rest ih =>
    intro c effs h
    obtain ⟨sn, its⟩ := hd
    simp only [NormalizeVideos.runSplits]
    rcases hri : NormalizeVideos.runItems env useF dry out label sn its c effs with ⟨st, o⟩
    have hst : ∀ b s, Eff.attempt b s ∈ st.2 → b = useF := by
      intro b s hm
      apply runItemsV_attempt env useF dry out label sn its c effs h b s
      rw [hri]
      exact hm
    cases o with
    | none => exact ih st.1 st.2 hst
    | some e => intro b s hm; exact hst b s hm

/-- The backend invariant passes through the video class loop. -/
theorem runClassesV_attempt (env : Env) (useF : Bool) (dry : Bool) (seed : ℤ)
    (out : List String) :
    ∀ (m : List (String × List Item)) (c : Counts) (effs : List Eff),
      (∀ b s, Eff.attempt b s ∈ effs → b = useF) →
      ∀ b s, Eff.attempt b s ∈ (NormalizeVideos.runClasses env useF dry seed out m c effs).1.2
        → b = useF := by
  intro m
  induction m with
  | nil => intro c effs h b s hm; exact h b s hm
  | cons cls rest ih =>
    intro c effs h
    obtain ⟨label, vids⟩ := cls
    simp only [NormalizeVideos.runClasses]
    rcases hs : NormalizeVideos.split_list vids lit07 lit02 lit01 seed with ⟨t, v, te⟩
    rcases hrs : NormalizeVideos.runSplits env useF dry out label
        [("train", t), ("val", v), ("test", te)] c effs with ⟨st, o⟩
    have hst : ∀ b s, Eff.attempt b s ∈ st.2 → b = useF := by
      intro b s hm
      apply runSplitsV_attempt env useF dry out label _ c effs h b s
      rw [hrs]
      exact hm
    cases o with
    | none => exact ih st.1 st.2 hst
    | some e => intro b s hm; exact hst b s hm

/-- C1: `split_list` with ratios `(0.7, 0.2, 0.1)` does NOT return pairwise
disjoint sequences for every input list: on the two-element list `[0, 0]`
(which has a duplicate element) the train and test outputs both contain
`0`.  (The claimed disjointness needs pairwise distinct items.) -/
theorem C1_counterexample :
    (NormalizeVideos.split_list [0, 0] lit07 lit02 lit01 42).1 = [0]
    ∧ (NormalizeVideos.split_list [0, 0] lit07 lit02 lit01 42).2.2 = [0]
    ∧ ¬ (NormalizeVideos.split_list [0, 0] lit07 lit02 lit01 42).1.Disjoint
        (NormalizeVideos.split_list [0, 0] lit07 lit02 lit01 42).2.2 := by
  refine ⟨rfl, rfl, ?_⟩
  intro h
  have h0 : (0 : ℕ) ∈ (NormalizeVideos.split_list [0, 0] lit07 lit02 lit01 42).1 := by decide
  have h1 : (0 : ℕ) ∈ (NormalizeVideos.split_list [0, 0] lit07 lit02 lit01 42).2.2 := by decide
  exact h h0 h1

/-- C1 (amended): for every item list whose elements are pairwise distinct
(as holds for the per-class file lists the pipelines pass) and every seed,
the three sequences returned by `split_list` with ratios `(0.7, 0.2, 0.1)`
are pairwise disjoint; unconditionally their concatenation is a permutation
of the input and the three lengths sum to `n`; and the image `split_list`
returns the same triple wrapped in `some`. -/
theorem C1_split_partition {α : Type} (items : List α) (seed : ℤ)
    (hnd : items.Nodup) (t v te : List α)
    (hsp : NormalizeVideos.split_list items lit07 lit02 lit01 seed = (t, v, te)) :
    t.Disjoint v ∧ t.Disjoint te ∧ v.Disjoint te
    ∧ (t ++ v ++ te).Perm items
    ∧ t.length + v.length + te.length = items.length
    ∧ NormalizeImages.split_list items lit07 lit02 lit01 seed = some (t, v, te) := by
  have hd := split_videos_disjoint items seed hnd
  have hp := split_videos_perm items seed
  have hl := split_videos_lengths items seed
  have h12 := splitN1_le_splitN2 items.length
  have h2n := splitN2_le items.length
  have hi := split_images_default_eq items seed
  rw [hsp] at hd hp hl hi
  dsimp only at hd hp hl
  exact ⟨hd.1, hd.2.1, hd.2.2, hp, by omega, hi⟩

/-- C1 witness: the partition properties at the concrete input `[0, 1, 2]`
with seed `7` (the splits are `([0, 2], [], [1])`). -/
theorem C1_split_partition_witness :
    ([0, 2] : List ℕ).Disjoint [] ∧ ([0, 2] : List ℕ).Disjoint [1]
    ∧ ([] : List ℕ).Disjoint [1]
    ∧ (([0, 2] : List ℕ) ++ [] ++ [1]).Perm [0, 1, 2]
    ∧ ([0, 2] : List ℕ).length + ([] : List ℕ).length + ([1] : List ℕ).length
        = ([0, 1, 2] : List ℕ).length
    ∧ NormalizeImages.split_list [0, 1, 2] lit07 lit02 lit01 7 = some ([0, 2], [], [1]) :=
  C1_split_partition [0, 1, 2] 7 (by decide) [0, 2] [] [1] (by decide)

/-- C2: the split sizes are NOT the exact rational floors for every `n`: at
`n = 30` the code computes `n2 = int(30 * (0.7 + 0.2)) = 26` because the
double `0.7 + 0.2` is `0.8999999999999999`, so the validation split gets `5`
items, while `floor(0.9*30) - floor(0.7*30) = 27 - 21 = 6`. -/
theorem C2_counterexample :
    (NormalizeVideos.split_list (List.range 30) lit07 lit02 lit01 42).1.length = 21
    ∧ (NormalizeVideos.split_list (List.range 30) lit07 lit02 lit01 42).2.1.length = 5
    ∧ (NormalizeVideos.split_list (List.range 30) lit07 lit02 lit01 42).2.2.length = 4
    ∧ ⌊(7/10 : ℚ) * 30⌋₊ = 21 ∧ ⌊(9/10 : ℚ) * 30⌋₊ = 27
    ∧ (5 : ℕ) ≠ 27 - 21 := by
  refine ⟨by decide, by decide, by decide, ?_, ?_, by decide⟩
  · rw [show (7/10 : ℚ) * 30 = ((21 : ℕ) : ℚ) by norm_num]
    exact Nat.floor_natCast 21
  · rw [show (9/10 : ℚ) * 30 = ((27 : ℕ) : ℚ) by norm_num]
    exact Nat.floor_natCast 27

/-- C2 (amended): for every item list and seed, the sizes of the three
splits are `n1`, `n2 - n1` and `n - n2`, where `n1 = int(float(n) * 0.7)`
and `n2 = int(float(n) * (0.7 + 0.2))` are computed in IEEE binary64
arithmetic (`splitN1`, `splitN2`); these agree with the exact rational
floors for some `n` (e.g. `n = 10`) but not for all (e.g. `n = 30`). -/
theorem C2_sizes {α : Type} (items : List α) (seed : ℤ) (t v te : List α)
    (hsp : NormalizeVideos.split_list items lit07 lit02 lit01 seed = (t, v, te)) :
    t.length = splitN1 items.length
    ∧ v.length = splitN2 items.length - splitN1 items.length
    ∧ te.length = items.length - splitN2 items.length
    ∧ NormalizeImages.split_list items lit07 lit02 lit01 seed = some (t, v, te) := by
  have hl := split_videos_lengths items seed
  have hi := split_images_default_eq items seed
  rw [hsp] at hl hi
  dsimp only at hl
  exact ⟨hl.1, hl.2.1, hl.2.2, hi⟩

/-- C2 witness: the sizes at the concrete input `[10, 20, 30]` with seed `5`
(the splits are `([10, 30], [], [20])`, sizes `(2, 0, 1)`). -/
theorem C2_sizes_witness :
    ([10, 30] : List ℕ).length = splitN1 ([10, 20, 30] : List ℕ).length
    ∧ ([] : List ℕ).length
        = splitN2 ([10, 20, 30] : List ℕ).length - splitN1 ([10, 20, 30] : List ℕ).length
    ∧ ([20] : List ℕ).length
        = ([10, 20, 30] : List ℕ).length - splitN2 ([10, 20, 30] : List ℕ).length
    ∧ NormalizeImages.split_list [10, 20, 30] lit07 lit02 lit01 5 = some ([10, 30], [], [20]) :=
  C2_sizes [10, 20, 30] 5 [10, 30] [] [20] (by decide)

/-- C3 (Scenario A): collecting one class `Pose/Wrong` with ten images and
running the image pipeline with seed 42 yields split sizes `(7, 2, 1)`, no
error, and computes all ten destination paths under
`output_root/{train,val,test}/images/Pose/Wrong/`. -/
theorem C3_scenario (out : List String) :
    NormalizeImages.gather_image_files ["src"] [(["Pose", "Wrong"], poseFiles)]
      = [("Pose/Wrong", poseItems)]
    ∧ (NormalizeImages.mainLoop envOK false 42 out [("Pose/Wrong", poseItems)]).1.1
      = ⟨7, 2, 1⟩
    ∧ (NormalizeImages.mainLoop envOK false 42 out [("Pose/Wrong", poseItems)]).2 = none
    ∧ (NormalizeImages.mainLoop envOK false 42 out
          [("Pose/Wrong", poseItems)]).1.2.filterMap writeDst
      = [out ++ ["train", "images", "Pose", "Wrong", "img5.jpg"],
         out ++ ["train", "images", "Pose", "Wrong", "img6.jpg"],
         out ++ ["train", "images", "Pose", "Wrong", "img3.jpg"],
         out ++ ["train", "images", "Pose", "Wrong", "img0.jpg"],
         out ++ ["train", "images", "Pose", "Wrong", "img1.jpg"],
         out ++ ["train", "images", "Pose", "Wrong", "img7.jpg"],
         out ++ ["train", "images", "Pose", "Wrong", "img9.jpg"],
         out ++ ["val", "images", "Pose", "Wrong", "img4.jpg"],
         out ++ ["val", "images", "Pose", "Wrong", "img2.jpg"],
         out ++ ["test", "images", "Pose", "Wrong", "img8.jpg"]] :=
  ⟨by decide, rfl, rfl, rfl⟩

/-- C4: both `split_list` functions are deterministic: the result depends
only on the argument triple `(items, ratios, seed)`; a fresh
`random.Random(seed)` is built from the seed alone, so equal arguments give
identical (train, val, test) sequences on every invocation. -/
theorem C4_deterministic {α : Type} (items1 items2 : List α)
    (r1 r2 r3 q1 q2 q3 : PyFloat) (s1 s2 : ℤ)
    (hitems : items1 = items2) (h1 : r1 = q1) (h2 : r2 = q2) (h3 : r3 = q3)
    (hs : s1 = s2) :
    NormalizeImages.split_list items1 r1 r2 r3 s1
      = NormalizeImages.split_list items2 q1 q2 q3 s2
    ∧ NormalizeVideos.split_list items1 r1 r2 r3 s1
      = NormalizeVideos.split_list items2 q1 q2 q3 s2 := by
  subst hitems h1 h2 h3 hs
  exact ⟨rfl, rfl⟩

/-- C4 witness: determinism instantiated at a concrete invocation. -/
theorem C4_deterministic_witness :
    NormalizeImages.split_list [0, 1] lit07 lit02 lit01 42
      = NormalizeImages.split_list [0, 1] lit07 lit02 lit01 42
    ∧ NormalizeVideos.split_list [0, 1] lit07 lit02 lit01 42
      = NormalizeVideos.split_list [0, 1] lit07 lit02 lit01 42 :=
  C4_deterministic [0, 1] [0, 1] lit07 lit02 lit01 lit07 lit02 lit01 42 42
    rfl rfl rfl rfl rfl

/-- C5: invalid ratios do NOT make `split_list` fail in both pipelines: for
`(0.5, 0.3, 0.3)` the image assertion indeed rejects (the float sum is
`1.1`), but the video `split_list` has no check at all and happily computes
a split. -/
theorem C5_counterexample :
    NormalizeImages.ratiosOk lit05 lit03 lit03 = false
    ∧ NormalizeImages.split_list [0, 1, 2] lit05 lit03 lit03 42 = none
    ∧ NormalizeVideos.split_list [0, 1, 2] lit05 lit03 lit03 42 = ([1], [2], [0]) := by
  refine ⟨by decide, ?_, by decide⟩
  unfold NormalizeImages.split_list
  rw [show NormalizeImages.ratiosOk lit05 lit03 lit03 = false from by decide]
  rfl

/-- C5 (amended): for every ratio triple rejected by the tolerance check
`abs(sum(ratios) - 1.0) < 1e-6`, the IMAGE `split_list` raises its
`AssertionError` before computing any split (so no shuffle, no slicing and
no filesystem effect happens); the VIDEO `split_list` performs no
validation whatsoever and returns the sliced shuffle for any ratios. -/
theorem C5_ratio_check {α : Type} (items : List α) (r1 r2 r3 : PyFloat) (seed : ℤ)
    (hbad : NormalizeImages.ratiosOk r1 r2 r3 = false) :
    NormalizeImages.split_list items r1 r2 r3 seed = none
    ∧ NormalizeVideos.split_list items r1 r2 r3 seed
      = ((pyShuffle seed items).take ((pyInt (pyMul (pyOfNat items.length) r1)).toNat),
         ((pyShuffle seed items).drop ((pyInt (pyMul (pyOfNat items.length) r1)).toNat)).take
           ((pyInt (pyMul (pyOfNat items.length) (pyAdd r1 r2))).toNat
             - (pyInt (pyMul (pyOfNat items.length) r1)).toNat),
         (pyShuffle seed items).drop
           ((pyInt (pyMul (pyOfNat items.length) (pyAdd r1 r2))).toNat)) := by
  constructor
  · unfold NormalizeImages.split_list
    rw [hbad]
    rfl
  · rfl

/-- C5 witness: the amended behaviour at the ratios `(0.5, 0.3, 0.3)`. -/
theorem C5_ratio_check_witness :
    NormalizeImages.split_list ([0, 1, 2] : List ℕ) lit05 lit03 lit03 42 = none
    ∧ NormalizeVideos.split_list ([0, 1, 2] : List ℕ) lit05 lit03 lit03 42
      = ((pyShuffle 42 [0, 1, 2]).take ((pyInt (pyMul (pyOfNat 3) lit05)).toNat),
         ((pyShuffle 42 [0, 1, 2]).drop ((pyInt (pyMul (pyOfNat 3) lit05)).toNat)).take
           ((pyInt (pyMul (pyOfNat 3) (pyAdd lit05 lit03))).toNat
             - (pyInt (pyMul (pyOfNat 3) lit05)).toNat),
         (pyShuffle 42 [0, 1, 2]).drop
           ((pyInt (pyMul (pyOfNat 3) (pyAdd lit05 lit03))).toNat)) :=
  C5_ratio_check [0, 1, 2] lit05 lit03 lit03 42 (by decide)

/-- C6: per-item failure isolation is broken in the OpenCV fallback: with
`ffmpeg` unavailable and two openable one-frame videos in one class, the
first processed item reaches `canvas = 255 * np.ones(...)` — but `numpy`
is never imported, so a `NameError` escapes `reencode_with_opencv`, no
handler in `main` catches it, the run halts, and the second item is never
attempted (one `attempt` marker, counters `(1, 0, 0)` of two planned). -/
theorem C6_numpy_crash :
    NormalizeVideos.mainLoop envNoFfmpeg false 42 ["out"] [("PoseA", vids2)]
      = ((⟨1, 0, 0⟩,
          [Eff.attempt false ["src", "PoseA", "b.mp4"],
           Eff.mkdirP ["out", "train", "videos", "PoseA"],
           Eff.writeVideo ["out", "train", "videos", "PoseA", "b.mp4"]]),
         some "NameError: name np is not defined")
    ∧ vids2.length = 2 :=
  ⟨rfl, rfl⟩

/-- C7: in the video pipeline the backend is fixed by the single startup
probe: every per-item attempt in the whole run (any dry mode, seed, output
root and manifest, hence regardless of any per-item failures along the way)
uses exactly the backend `ffmpeg_available` selected before the first item;
nothing ever switches to the other backend mid-run. -/
theorem C7_backend_fixed (env : Env) (dry : Bool) (seed : ℤ) (out : List String)
    (m : List (String × List Item)) (b : Bool) (s : Item)
    (hmem : Eff.attempt b s ∈ (NormalizeVideos.mainLoop env dry seed out m).1.2) :
    b = NormalizeVideos.ffmpeg_available env := by
  have h0 : ∀ bb ss, Eff.attempt bb ss ∈ ([] : List Eff)
      → bb = NormalizeVideos.ffmpeg_available env := by
    intro bb ss h
    simp at h
  exact runClassesV_attempt env (NormalizeVideos.ffmpeg_available env) dry seed out m
    ⟨0, 0, 0⟩ [] h0 b s hmem

/-- C7 witness: a concrete run with `ffmpeg` installed attempts its item
with the ffmpeg backend. -/
theorem C7_backend_fixed_witness : true = NormalizeVideos.ffmpeg_available envOK :=
  C7_backend_fixed envOK false 42 ["o"] [("A", [["a.mp4"]])] true ["a.mp4"] (by decide)

/-- C8: with `--dry_run`, both pipelines still bump the per-split counter
exactly once for every planned (class, split, item) — the counters equal the
planned counts, whose sum is the total number of collected items — while the
effect trace stays empty: no transform is invoked and no file or directory
is created under the output root. -/
theorem C8_dry_run (env : Env) (seed : ℤ) (out : List String)
    (m : List (String × List Item)) :
    NormalizeImages.mainLoop env true seed out m = ((plannedCounts seed m, []), none)
    ∧ NormalizeVideos.mainLoop env true seed out m = ((plannedCounts seed m, []), none)
    ∧ (plannedCounts seed m).train + (plannedCounts seed m).val + (plannedCounts seed m).test
      = totalItems m := by
  refine ⟨?_, ?_, plannedCounts_total seed m⟩
  · exact runClassesI_dry env seed out m ⟨0, 0, 0⟩ []
  · exact runClassesV_dry env (NormalizeVideos.ffmpeg_available env) seed out m ⟨0, 0, 0⟩ []

/-- C9: media files directly in `src_root` get the class label `"."` (the
string of the root's path relative to itself), and since `pathlib`
collapses `.` components on join, their destinations are effectively
directly under the media-kind directory:
`output_root/<split>/<images|videos>/<filename>`. -/
theorem C9_root_class_label (srcRoot out : List String) (split name : String)
    (files : List String)
    (himg : (files.map (fun f => srcRoot ++ [f])).filter NormalizeImages.is_image_file ≠ [])
    (hvid : (files.map (fun f => srcRoot ++ [f])).filter NormalizeVideos.is_video_file ≠ []) :
    NormalizeImages.gather_image_files srcRoot [([], files)]
      = [(".", (files.map (fun f => srcRoot ++ [f])).filter NormalizeImages.is_image_file)]
    ∧ NormalizeVideos.gather_video_files srcRoot [([], files)]
      = [(".", (files.map (fun f => srcRoot ++ [f])).filter NormalizeVideos.is_video_file)]
    ∧ NormalizeImages.imgDst out split "." name = out ++ [split, "images", name]
    ∧ NormalizeVideos.vidDst out split "." name = out ++ [split, "videos", name] := by
  refine ⟨?_, ?_, rfl, rfl⟩
  · unfold NormalizeImages.gather_image_files
    simp only [List.foldl_cons, List.foldl_nil, List.append_nil]
    have hcond : ((files.map (fun f => srcRoot ++ [f])).filter
        NormalizeImages.is_image_file).isEmpty = false := by
      cases hE : ((files.map (fun f => srcRoot ++ [f])).filter
          NormalizeImages.is_image_file).isEmpty
      · rfl
      · exact absurd (List.isEmpty_iff.mp hE) himg
    rw [hcond]
    rfl
  · unfold NormalizeVideos.gather_video_files
    simp only [List.foldl_cons, List.foldl_nil, List.append_nil]
    have hcond : ((files.map (fun f => srcRoot ++ [f])).filter
        NormalizeVideos.is_video_file).isEmpty = false := by
      cases hE : ((files.map (fun f => srcRoot ++ [f])).filter
          NormalizeVideos.is_video_file).isEmpty
      · rfl
      · exact absurd (List.isEmpty_iff.mp hE) hvid
    rw [hcond]
    rfl

/-- C9 witness: the root-level behaviour at a concrete file listing. -/
theorem C9_root_class_label_witness :
    NormalizeImages.gather_image_files ["root"] [([], ["a.jpg", "b.mp4"])]
      = [(".", ((["a.jpg", "b.mp4"] : List String).map
          (fun f => ["root"] ++ [f])).filter NormalizeImages.is_image_file)]
    ∧ NormalizeVideos.gather_video_files ["root"] [([], ["a.jpg", "b.mp4"])]
      = [(".", ((["a.jpg", "b.mp4"] : List String).map
          (fun f => ["root"] ++ [f])).filter NormalizeVideos.is_video_file)]
    ∧ NormalizeImages.imgDst ["o"] "train" "." "a.jpg" = ["o"] ++ ["train", "images", "a.jpg"]
    ∧ NormalizeVideos.vidDst ["o"] "train" "." "a.jpg" = ["o"] ++ ["train", "videos", "a.jpg"] :=
  C9_root_class_label ["root"] ["o"] "train" "a.jpg" ["a.jpg", "b.mp4"]
    (by decide) (by decide)

/-- C10: both cited transforms create the destination's parent directories
BEFORE opening or encoding the source, outside the exception handler: when
`mkdir` succeeds the very first recorded effect is the parent-directory
creation (also for items whose transform then fails) and the function
returns normally; when `mkdir` itself fails the error escapes the item
boundary (`Except.error`) with nothing else attempted. -/
theorem C10_mkdir_first (env : Env) (src : Item) (dst : List String) :
    (env.mkdirOk (parentDir dst) = true →
      (NormalizeImages.resize_and_save env src dst).1.head?
        = some (Eff.mkdirP (parentDir dst))
      ∧ (∃ u, (NormalizeImages.resize_and_save env src dst).2 = Except.ok u)
      ∧ (NormalizeVideos.reencode_with_ffmpeg env src dst).1.head?
        = some (Eff.mkdirP (parentDir dst))
      ∧ (∃ r, (NormalizeVideos.reencode_with_ffmpeg env src dst).2 = Except.ok r))
    ∧ (env.mkdirOk (parentDir dst) = false →
      NormalizeImages.resize_and_save env src dst = ([], Except.error "mkdir failed")
      ∧ NormalizeVideos.reencode_with_ffmpeg env src dst
        = ([], Except.error "mkdir failed")) := by
  constructor
  · intro hmk
    refine ⟨?_, ?_, ?_, ?_⟩
    · unfold NormalizeImages.resize_and_save
      rw [if_pos hmk]
      split_ifs <;> rfl
    · unfold NormalizeImages.resize_and_save
      rw [if_pos hmk]
      split_ifs
      · exact ⟨(), rfl⟩
      · exact ⟨(), rfl⟩
    · unfold NormalizeVideos.reencode_with_ffmpeg
      rw [if_pos hmk]
      split_ifs <;> rfl
    · unfold NormalizeVideos.reencode_with_ffmpeg
      rw [if_pos hmk]
      split_ifs
      · exact ⟨true, rfl⟩
      · exact ⟨false, rfl⟩
  · intro hmk
    constructor
    · unfold NormalizeImages.resize_and_save
      rw [if_neg (by simp [hmk])]
    · unfold NormalizeVideos.reencode_with_ffmpeg
      rw [if_neg (by simp [hmk])]

/-- C10 witness: the mkdir-first behaviour in a working environment and the
escaping error in an environment whose `mkdir` fails. -/
theorem C10_mkdir_first_witness :
    ((NormalizeImages.resize_and_save envOK ["s.jpg"] ["o", "d.jpg"]).1.head?
        = some (Eff.mkdirP (parentDir ["o", "d.jpg"]))
      ∧ (∃ u, (NormalizeImages.resize_and_save envOK ["s.jpg"] ["o", "d.jpg"]).2 = Except.ok u)
      ∧ (NormalizeVideos.reencode_with_ffmpeg envOK ["s.jpg"] ["o", "d.jpg"]).1.head?
        = some (Eff.mkdirP (parentDir ["o", "d.jpg"]))
      ∧ (∃ r, (NormalizeVideos.reencode_with_ffmpeg envOK ["s.jpg"] ["o", "d.jpg"]).2
          = Except.ok r))
    ∧ (NormalizeImages.resize_and_save envNoMkdir ["s.jpg"] ["o", "d.jpg"]
        = ([], Except.error "mkdir failed")
      ∧ NormalizeVideos.reencode_with_ffmpeg envNoMkdir ["s.jpg"] ["o", "d.jpg"]
        = ([], Except.error "mkdir failed")) :=
  ⟨(C10_mkdir_first envOK ["s.jpg"] ["o", "d.jpg"]).1 rfl,
   (C10_mkdir_first envNoMkdir ["s.jpg"] ["o", "d.jpg"]).2 rfl⟩
